import Mathlib

/-!
Verification of the dependabot-cron-action decision core against its
TypeScript source (src/index.ts).

JavaScript strings are modelled as `List Char`.  The helpers below model the
JavaScript string operations used by the source: `String.prototype.split`
(non-overlapping, left to right, for a nonempty separator), `substr(0, 8)`
(`List.take 8`), and `trim` (drop JS whitespace from both ends).

The `semver` npm package functions used by the source (`diff`, and the
parsing done by the `SemVer` constructor) are modelled after the library
implementation contemporary with the source (semver 7.3.x): strict grammar
with an optional leading `v`, numeric components without leading zeros and
bounded by `Number.MAX_SAFE_INTEGER`, dot-separated prerelease and build
identifier lists, and `diff` returning `null` for equal versions, else the
highest differing component prefixed with `pre` when either side has a
prerelease part, defaulting to `prerelease`.
-/

/-- JS whitespace characters recognised by `String.prototype.trim` (the
ones relevant here: ASCII whitespace plus NBSP and the BOM). -/
def isJsWhite (c : Char) : Bool :=
  c = ' ' || c = '\t' || c = '\n' || c = '\r' ||
  c = '\x0b' || c = '\x0c' || c = '\u00a0' || c = '\ufeff'

/-- Model of `String.prototype.trim`. -/
def jsTrim (s : List Char) : List Char :=
  ((s.dropWhile isJsWhite).reverse.dropWhile isJsWhite).reverse

/-- If `pat` is a literal first part of `s`, return the remainder, else `none`. -/
def stripMatch : List Char → List Char → Option (List Char)
  | [], s => some s
  | _ :: _, [] => none
  | p :: ps, c :: cs => if c = p then stripMatch ps cs else none

/-- Does `sep` occur as a contiguous part of `s`? -/
def containsSub (sep : List Char) : List Char → Bool
  | [] => sep.isEmpty
  | c :: rest => (stripMatch sep (c :: rest)).isSome || containsSub sep rest

/-- The part of `s` before the first occurrence of `sep` (all of `s` if none). -/
def beforeOcc (sep : List Char) : List Char → List Char
  | [] => []
  | c :: rest =>
    match stripMatch sep (c :: rest) with
    | some _ => []
    | none => c :: beforeOcc sep rest

/-- The part of `s` after the first occurrence of `sep` (`none` if `sep` does
not occur). -/
def afterOcc (sep : List Char) : List Char → Option (List Char)
  | [] => if sep.isEmpty then some [] else none
  | c :: rest =>
    match stripMatch sep (c :: rest) with
    | some remainder => some remainder
    | none => afterOcc sep rest

/-- Fuelled worker for `splitList`.  With fuel at least `s.length` (and a
nonempty separator) this computes exactly `s.split(sep)` of JavaScript,
because every removed separator occurrence consumes at least one character. -/
def splitListF (sep : List Char) : Nat → List Char → List (List Char)
  | 0, s => [beforeOcc sep s]
  | fuel + 1, s =>
    match afterOcc sep s with
    | none => [s]
    | some rest => beforeOcc sep s :: splitListF sep fuel rest

/-- Model of `String.prototype.split` for a nonempty separator. -/
def splitList (sep s : List Char) : List (List Char) :=
  splitListF sep s.length s

/-- Result values of `semver.diff` (the non-`null` ones). -/
inductive DiffResult where
  | major
  | premajor
  | minor
  | preminor
  | patch
  | prepatch
  | prerelease
deriving DecidableEq, Repr

/-- A prerelease identifier: the `SemVer` constructor stores all-numeric
identifiers below `Number.MAX_SAFE_INTEGER` as numbers, others as strings. -/
inductive PreId where
  | num (n : Nat)
  | str (s : List Char)
deriving DecidableEq, Repr

/-- A parsed semantic version. -/
structure SemVer where
  major : Nat
  minor : Nat
  patch : Nat
  prerelease : List PreId
  build : List (List Char)
deriving DecidableEq, Repr

def maxSafeInteger : Nat := 2 ^ 53 - 1

def digitsToNat (ds : List Char) : Nat :=
  ds.foldl (fun acc c => acc * 10 + (c.toNat - 48)) 0

/-- A valid numeric component per the strict semver grammar:
nonempty digits with no leading zero (except the single digit `0`). -/
def validNum : List Char → Bool
  | [] => false
  | '0' :: rest => rest.isEmpty
  | _ => true

/-- Characters allowed in prerelease and build identifiers. -/
def isIdentChar (c : Char) : Bool := c.isAlphanum || c = '-'

/-- Parse one prerelease identifier per the strict grammar, storing
all-numeric identifiers below `Number.MAX_SAFE_INTEGER` as numbers. -/
def parsePreId (id : List Char) : Option PreId :=
  if id.isEmpty then none
  else if id.all Char.isDigit then
    if validNum id then
      if digitsToNat id < maxSafeInteger then some (.num (digitsToNat id))
      else some (.str id)
    else none
  else if id.all isIdentChar then some (.str id) else none

def parsePreIds (preChars : List Char) : Option (List PreId) :=
  (splitList ['.'] preChars).mapM parsePreId

/-- Parse one build identifier: nonempty, identifier characters only
(leading zeros are allowed in build identifiers). -/
def parseBuildId (id : List Char) : Option (List Char) :=
  if !id.isEmpty && id.all isIdentChar then some id else none

def parseBuildIds (b : List Char) : Option (List (List Char)) :=
  (splitList ['.'] b).mapM parseBuildId

/-- Model of the npm `SemVer` constructor on a string (strict mode, as used
by `semver.diff`): length cap, `trim`, optional leading `v`,
`major.minor.patch` with strict numerals, then optional `-prerelease`
and optional `+build`. `none` models the constructor throwing. -/
def parseSemver (s0 : List Char) : Option SemVer := do
  guard (s0.length ≤ 256)
  let t := jsTrim s0
  let s := match t with
    | 'v' :: rest => rest
    | _ => t
  let d1 := s.takeWhile Char.isDigit
  guard (validNum d1)
  guard (digitsToNat d1 ≤ maxSafeInteger)
  match s.dropWhile Char.isDigit with
  | '.' :: r1 =>
    let d2 := r1.takeWhile Char.isDigit
    guard (validNum d2)
    guard (digitsToNat d2 ≤ maxSafeInteger)
    match r1.dropWhile Char.isDigit with
    | '.' :: r2 =>
      let d3 := r2.takeWhile Char.isDigit
      guard (validNum d3)
      guard (digitsToNat d3 ≤ maxSafeInteger)
      match r2.dropWhile Char.isDigit with
      | [] => pure ⟨digitsToNat d1, digitsToNat d2, digitsToNat d3, [], []⟩
      | '-' :: t1 =>
        let pre ← parsePreIds (t1.takeWhile (· ≠ '+'))
        match t1.dropWhile (· ≠ '+') with
        | [] => pure ⟨digitsToNat d1, digitsToNat d2, digitsToNat d3, pre, []⟩
        | _ :: b => do
          let bs ← parseBuildIds b
          pure ⟨digitsToNat d1, digitsToNat d2, digitsToNat d3, pre, bs⟩
      | '+' :: b => do
        let bs ← parseBuildIds b
        pure ⟨digitsToNat d1, digitsToNat d2, digitsToNat d3, [], bs⟩
      | _ => none
    | _ => none
  | _ => none

/-- `semver.diff` on two already-parsed versions (semver 7.3.x): `none` for
equal versions (`eq` compares main components and prerelease, ignoring
build), otherwise the highest differing main component, `pre`-prefixed when
either version has a prerelease part, defaulting to `prerelease`. -/
def diffParsed (v1 v2 : SemVer) : Option DiffResult :=
  if v1.major = v2.major ∧ v1.minor = v2.minor ∧ v1.patch = v2.patch ∧
      v1.prerelease = v2.prerelease then
    none
  else if v1.major ≠ v2.major then
    some (if v1.prerelease ≠ [] ∨ v2.prerelease ≠ [] then .premajor else .major)
  else if v1.minor ≠ v2.minor then
    some (if v1.prerelease ≠ [] ∨ v2.prerelease ≠ [] then .preminor else .minor)
  else if v1.patch ≠ v2.patch then
    some (if v1.prerelease ≠ [] ∨ v2.prerelease ≠ [] then .prepatch else .patch)
  else
    some .prerelease

/-- `semver.diff` on two version strings.  `none` conflates the `null`
result (equal versions) with a thrown parse error; `getSemver` maps both
to `null` anyway. -/
def semverDiff (version1 version2 : List Char) : Option DiffResult :=
  match parseSemver version1, parseSemver version2 with
  | some v1, some v2 => diffParsed v1 v2
  | _, _ => none

def fromMarker : List Char := "from ".toList

def toMarker : List Char := " to ".toList

/-- One version-token extraction from `getSemver` (src/index.ts:44-55):
`prTitle.split(marker)[1].split(' ')[0].split('\n')[0].substr(0, 8).trim()`,
with `none` modelling the `TypeError` thrown when the marker is absent
(index `[1]` is `undefined`). -/
def extractToken (title : List Char) (marker : List Char) : Option (List Char) :=
  match (splitList marker title)[1]? with
  | none => none
  | some rest =>
    some (jsTrim (List.take 8
      ((splitList ['\n'] ((splitList [' '] rest).headD [])).headD [])))

/-- `getSemver` (src/index.ts:42-66) on the title as a character list:
extract the two version tokens; if both are nonempty, return
`diff(fromVersion, toVersion)`; any thrown error and any empty token
yield `null` (`none`). -/
def getSemverL (prTitle : List Char) : Option DiffResult :=
  match extractToken prTitle fromMarker, extractToken prTitle toMarker with
  | some fromVersion, some toVersion =>
    if fromVersion ≠ [] ∧ toVersion ≠ [] then semverDiff fromVersion toVersion
    else none
  | _, _ => none

/-- `getSemver` on a Lean string. -/
def getSemver (prTitle : String) : Option DiffResult :=
  getSemverL prTitle.toList

/-- A check run as consumed by the source: only its `conclusion` field is
inspected (`null` is modelled as `none`). -/
structure CheckResult where
  conclusion : Option String
deriving DecidableEq, Repr

/-- A commit status as consumed by the source: its `context` and `state`. -/
structure StatusResult where
  context : String
  state : String
deriving DecidableEq, Repr

/-- src/index.ts:145-147: every check run concludes `success` or `neutral`. -/
def allChecksHaveSucceeded (checkRuns : List CheckResult) : Bool :=
  checkRuns.all fun run =>
    decide (run.conclusion = some "success" ∨ run.conclusion = some "neutral")

/-- JavaScript `Array.prototype.filter` with the element index, as used by
the status deduplication in src/index.ts:159-162. -/
def filterWithIndex (p : StatusResult → Nat → Bool) :
    List StatusResult → Nat → List StatusResult
  | [], _ => []
  | s :: rest, i =>
    if p s i then s :: filterWithIndex p rest (i + 1)
    else filterWithIndex p rest (i + 1)

/-- src/index.ts:159-162: keep a status exactly when the first index of its
context in the mapped context array equals its own index. -/
def uniqueStatuses (statuses : List StatusResult) : List StatusResult :=
  filterWithIndex
    (fun item index => (statuses.map (·.context)).indexOf item.context == index)
    statuses 0

/-- src/index.ts:163-165: every deduplicated status has state `success`. -/
def allStatusesHaveSucceeded (statuses : List StatusResult) : Bool :=
  (uniqueStatuses statuses).all fun run => decide (run.state = "success")

/-- The aggregate signal verdict for one PR: both the check half and the
status half must pass. -/
def signalVerdict (checks : List CheckResult) (statuses : List StatusResult) : Bool :=
  allChecksHaveSucceeded checks && allStatusesHaveSucceeded statuses

inductive AutoMerge where
  | major
  | minor
  | patch
deriving DecidableEq, Repr

inductive MergeMethod where
  | merge
  | squash
  | rebase
deriving DecidableEq, Repr

/-- `getAutoMerge` (src/index.ts:24-29): empty input defaults to `minor`;
anything other than `major`/`minor`/`patch` throws. -/
def getAutoMerge (value : String) : Except String AutoMerge :=
  let autoMerge := if value = "" then "minor" else value
  if autoMerge = "major" then .ok .major
  else if autoMerge = "minor" then .ok .minor
  else if autoMerge = "patch" then .ok .patch
  else .error ("Invalid auto-merge option: " ++ autoMerge)

/-- `getMergeMethod` (src/index.ts:31-40): empty input defaults to `merge`;
anything other than `merge`/`squash`/`rebase` throws. -/
def getMergeMethod (value : String) : Except String MergeMethod :=
  let mergeMethod := if value = "" then "merge" else value
  if mergeMethod = "merge" then .ok .merge
  else if mergeMethod = "squash" then .ok .squash
  else if mergeMethod = "rebase" then .ok .rebase
  else .error ("Invalid merge method: " ++ mergeMethod)

/-- The merge-policy condition of src/index.ts:175-180, verbatim:
merge when the bump is `major` at threshold `major`, or `minor` at
threshold `major` or `minor`, or anything that is neither `major` nor
`minor` (including `null` and the `pre*` diff results). -/
def shouldMergeCond (versionBump : Option DiffResult) (autoMerge : AutoMerge) : Bool :=
  decide ((versionBump = some DiffResult.major ∧ autoMerge = AutoMerge.major) ∨
    (versionBump = some DiffResult.minor ∧
      (autoMerge = AutoMerge.major ∨ autoMerge = AutoMerge.minor)) ∨
    (versionBump ≠ some DiffResult.major ∧ versionBump ≠ some DiffResult.minor))

/-- The fields of a pull request consumed by the run loop: `number`,
`title`, `user?.login` (nullable) and `_links.statuses.href`. -/
structure PRData where
  number : Nat
  title : String
  userLogin : Option String
  statusesHref : String
deriving DecidableEq, Repr

/-- One observable remote call made by the run loop, with the outcome the
API reported for it (`succeeded = false` models a call that threw and was
caught inside `approve`/`merge`). -/
inductive ApiAction where
  | approve (prNumber : Nat) (succeeded : Bool)
  | merge (prNumber : Nat) (mergeMethod : MergeMethod) (succeeded : Bool)
deriving DecidableEq, Repr

/-- The external GitHub API, as a deterministic oracle: listing PRs and
fetching signals can fail with an error message (a rejected promise);
approve/merge calls report success or failure. -/
structure Env where
  openPRs : Except String (List PRData)
  checksForRef : List Char → Except String (List CheckResult)
  statusesForRef : List Char → Except String (List StatusResult)
  approveResult : Nat → Bool
  mergeResult : Nat → Bool

/-- src/index.ts:138: `pr._links.statuses.href.split('/').pop() || ''`. -/
def lastCommitHash (pr : PRData) : List Char :=
  (splitList ['/'] pr.statusesHref.toList).getLastD []

/-- `approve` (src/index.ts:68-89): performs the createReview call and
absorbs a failure, returning `false` instead of throwing. -/
def approve (env : Env) (prNumber : Nat) : Bool × ApiAction :=
  (env.approveResult prNumber, .approve prNumber (env.approveResult prNumber))

/-- `merge` (src/index.ts:91-113): performs the merge call and absorbs a
failure, returning `false` instead of throwing. -/
def merge (env : Env) (prNumber : Nat) (mergeMethod : MergeMethod) : Bool × ApiAction :=
  (env.mergeResult prNumber, .merge prNumber mergeMethod (env.mergeResult prNumber))

/-- One iteration of the PR loop (src/index.ts:133-187): fetch check runs
(an error propagates — there is no try/catch in the loop), test them,
fetch statuses, test them, compute the bump from the title and apply the
merge policy; on a merge decision call `approve` then `merge`, ignoring
their boolean results.  Returns the actions performed and `some msg` when
an uncaught error aborted the iteration. -/
def processPR (autoMerge : AutoMerge) (mergeMethod : MergeMethod) (env : Env)
    (pr : PRData) : List ApiAction × Option String :=
  match env.checksForRef (lastCommitHash pr) with
  | .error msg => ([], some msg)
  | .ok checkRuns =>
    if !allChecksHaveSucceeded checkRuns then ([], none)
    else
      match env.statusesForRef (lastCommitHash pr) with
      | .error msg => ([], some msg)
      | .ok statuses =>
        if !allStatusesHaveSucceeded statuses then ([], none)
        else
          let versionBump := getSemver pr.title
          if shouldMergeCond versionBump autoMerge then
            let (_, a1) := approve env pr.number
            let (_, a2) := merge env pr.number mergeMethod
            ([a1, a2], none)
          else ([], none)

/-- The `for` loop of `run`: PRs in order; an uncaught error in one
iteration aborts the whole loop (the rejection propagates out of `run`). -/
def processLoop (autoMerge : AutoMerge) (mergeMethod : MergeMethod) (env : Env) :
    List PRData → List ApiAction × Option String
  | [] => ([], none)
  | pr :: rest =>
    match processPR autoMerge mergeMethod env pr with
    | (acts, some msg) => (acts, some msg)
    | (acts, none) =>
      let (acts2, res) := processLoop autoMerge mergeMethod env rest
      (acts ++ acts2, res)

/-- The action inputs and environment variables read by `run`. -/
structure RunInputs where
  tokenInput : String
  envGithubToken : String
  autoMergeInput : String
  mergeMethodInput : String
  prAuthorInput : String
deriving DecidableEq, Repr

/-- `run` (src/index.ts:115-188) composed with the top-level
`run().catch(error)` (line 190): the trace of approve/merge calls, and
`some msg` when the run failed (`setFailed(msg)`).  Token check, config
validation, PR listing filtered by author, then the loop. -/
def runModel (inp : RunInputs) (env : Env) : List ApiAction × Option String :=
  let token := if inp.tokenInput = "" then inp.envGithubToken else inp.tokenInput
  if token = "" then
    ([], some "GitHub token not found; set the `token` parameter")
  else
    let prAuthor := if inp.prAuthorInput = "" then "dependabot[bot]" else inp.prAuthorInput
    match getAutoMerge inp.autoMergeInput with
    | .error msg => ([], some msg)
    | .ok autoMerge =>
      match getMergeMethod inp.mergeMethodInput with
      | .error msg => ([], some msg)
      | .ok mergeMethod =>
        match env.openPRs with
        | .error msg => ([], some msg)
        | .ok prs =>
          processLoop autoMerge mergeMethod env
            (prs.filter fun pr => pr.userLogin == some prAuthor)

/-- Spec-side classification of a version change by standard semver
precedence on the main components: the highest differing component, or
`none` when the versions do not differ there. -/
inductive BumpClass where
  | major
  | minor
  | patch
  | none
deriving DecidableEq, Repr

def specSemverClass (v1 v2 : SemVer) : BumpClass :=
  if v1.major ≠ v2.major then .major
  else if v1.minor ≠ v2.minor then .minor
  else if v1.patch ≠ v2.patch then .patch
  else .none

/-- The `semver.diff` value the spec predicts for a given classification. -/
def bumpToDiff : BumpClass → Option DiffResult
  | .major => some .major
  | .minor => some .minor
  | .patch => some .patch
  | .none => none

/-- Modelled from the claim wording for the parser edge case: the token is
the text following the first occurrence of the marker, up to the next
space or newline, truncated to at most 8 characters, and trimmed. -/
def claimedToken (title m : List Char) : Option (List Char) :=
  (afterOcc m title).map fun rest =>
    jsTrim (List.take 8 ((rest.takeWhile (· ≠ ' ')).takeWhile (· ≠ '\n')))

/-- Modelled from the claim wording for status deduplication: keep a
status exactly when its context has not been seen before (first
occurrence per context wins). -/
def specDedup (seen : List String) : List StatusResult → List StatusResult
  | [] => []
  | s :: rest =>
    if s.context ∈ seen then specDedup seen rest
    else s :: specDedup (s.context :: seen) rest

/-- The characters a (whitespace-free) semver token is made of. -/
def semverTokenChar (c : Char) : Bool :=
  c.isAlphanum || c = '.' || c = '-' || c = '+'

/-- Fixture: a dependabot PR with a patch-level bump in its title. -/
def cPR1 : PRData := ⟨1, "Bump a from 1.2.3 to 1.2.4", some "dependabot[bot]", "s/one"⟩

/-- Fixture: a second dependabot PR with a patch-level bump in its title. -/
def cPR2 : PRData := ⟨2, "Bump b from 1.2.3 to 1.2.4", some "dependabot[bot]", "s/two"⟩

/-- Fixture: the check fetch fails for `cPR1` and succeeds (green) for others. -/
def cEnvBoom : Env :=
  ⟨.ok [cPR1, cPR2],
   fun ref => if ref = "one".toList then .error "boom" else .ok [],
   fun _ => .ok [], fun _ => true, fun _ => true⟩

/-- Fixture: everything green, all calls succeed. -/
def cEnvGreen : Env :=
  ⟨.ok [cPR1], fun _ => .ok [], fun _ => .ok [], fun _ => true, fun _ => true⟩

/-- Fixture: every check fetch fails. -/
def cEnvDown : Env :=
  ⟨.ok [cPR1], fun _ => .error "down", fun _ => .ok [], fun _ => true, fun _ => true⟩

/-- Fixture: a failing check run. -/
def cEnvRedCheck : Env :=
  ⟨.ok [cPR1], fun _ => .ok [⟨some "failure"⟩], fun _ => .ok [],
   fun _ => true, fun _ => true⟩

/-- Fixture: signals green but the approve and merge calls both fail. -/
def cEnvFailCalls : Env :=
  ⟨.ok [cPR1], fun _ => .ok [], fun _ => .ok [], fun _ => false, fun _ => false⟩

/-- C1: the merge decision of src/index.ts:175-180 agrees with the 12-entry
decision table of spec §4.3 on every (bump, threshold) pair with bump in
{major, minor, patch, none}: merge exactly when the bump is patch or none,
or minor under threshold major/minor, or major under threshold major. -/
theorem claim_C1_merge_table :
    (shouldMergeCond (some DiffResult.major) AutoMerge.major = true) ∧
    (shouldMergeCond (some DiffResult.major) AutoMerge.minor = false) ∧
    (shouldMergeCond (some DiffResult.major) AutoMerge.patch = false) ∧
    (shouldMergeCond (some DiffResult.minor) AutoMerge.major = true) ∧
    (shouldMergeCond (some DiffResult.minor) AutoMerge.minor = true) ∧
    (shouldMergeCond (some DiffResult.minor) AutoMerge.patch = false) ∧
    (shouldMergeCond (some DiffResult.patch) AutoMerge.major = true) ∧
    (shouldMergeCond (some DiffResult.patch) AutoMerge.minor = true) ∧
    (shouldMergeCond (some DiffResult.patch) AutoMerge.patch = true) ∧
    (shouldMergeCond none AutoMerge.major = true) ∧
    (shouldMergeCond none AutoMerge.minor = true) ∧
    (shouldMergeCond none AutoMerge.patch = true) := by
  decide

/-- C10: whenever the parsed bump is one of the prerelease-flavoured
`semver.diff` results (premajor, preminor, prepatch, prerelease), the
policy condition merges under every threshold, because it treats any value
other than exactly `major` or `minor` as mergeable. -/
theorem claim_C10_pre_bumps_always_merge (title : String) (autoMerge : AutoMerge)
    (h : getSemver title = some DiffResult.premajor ∨
         getSemver title = some DiffResult.preminor ∨
         getSemver title = some DiffResult.prepatch ∨
         getSemver title = some DiffResult.prerelease) :
    shouldMergeCond (getSemver title) autoMerge = true := by
  rcases h with h | h | h | h <;> rw [h] <;> cases autoMerge <;> decide

theorem claim_C10_witness :
    shouldMergeCond (getSemver "Bump foo from 1.0.0 to 2.0.0-alpha") AutoMerge.patch = true :=
  claim_C10_pre_bumps_always_merge "Bump foo from 1.0.0 to 2.0.0-alpha" AutoMerge.patch
    (Or.inl (by decide))

/-- C5: a PR whose signal verdict is false, or whose policy decision is
no-merge, produces no approve or merge call (and no error) in its loop
iteration. -/
theorem claim_C5_skipped_prs_no_side_effects (autoMerge : AutoMerge)
    (mergeMethod : MergeMethod) (env : Env) (pr : PRData)
    (checks : List CheckResult) (statuses : List StatusResult)
    (hc : env.checksForRef (lastCommitHash pr) = .ok checks)
    (hs : env.statusesForRef (lastCommitHash pr) = .ok statuses)
    (h : signalVerdict checks statuses = false ∨
         shouldMergeCond (getSemver pr.title) autoMerge = false) :
    processPR autoMerge mergeMethod env pr = ([], none) := by
  cases hch : allChecksHaveSucceeded checks with
  | false => simp [processPR, hc, hch]
  | true =>
    cases hst : allStatusesHaveSucceeded statuses with
    | false => simp [processPR, hc, hch, hs, hst]
    | true =>
      have hv : signalVerdict checks statuses = true := by
        simp [signalVerdict, hch, hst]
      rcases h with h | h
      · rw [hv] at h; cases h
      · simp [processPR, hc, hch, hs, hst, h]

theorem claim_C5_witness :
    processPR AutoMerge.minor MergeMethod.merge cEnvRedCheck cPR1 = ([], none) :=
  claim_C5_skipped_prs_no_side_effects AutoMerge.minor MergeMethod.merge cEnvRedCheck cPR1
    [⟨some "failure"⟩] [] rfl rfl (Or.inl (by decide))

/-- C9: when the policy decides to merge, the loop iteration records the
approve call immediately before the merge call for that PR, regardless of
whether either call succeeds, and finishes without an uncaught error; a
finished iteration never prevents the remaining PRs from being processed. -/
theorem claim_C9_approve_then_merge_absorbed :
    (∀ (autoMerge : AutoMerge) (mergeMethod : MergeMethod) (env : Env) (pr : PRData)
       (checks : List CheckResult) (statuses : List StatusResult),
       env.checksForRef (lastCommitHash pr) = .ok checks →
       allChecksHaveSucceeded checks = true →
       env.statusesForRef (lastCommitHash pr) = .ok statuses →
       allStatusesHaveSucceeded statuses = true →
       shouldMergeCond (getSemver pr.title) autoMerge = true →
       processPR autoMerge mergeMethod env pr =
         ([ApiAction.approve pr.number (env.approveResult pr.number),
           ApiAction.merge pr.number mergeMethod (env.mergeResult pr.number)], none)) ∧
    (∀ (autoMerge : AutoMerge) (mergeMethod : MergeMethod) (env : Env) (pr : PRData)
       (rest : List PRData) (acts : List ApiAction),
       processPR autoMerge mergeMethod env pr = (acts, none) →
       processLoop autoMerge mergeMethod env (pr :: rest) =
         (acts ++ (processLoop autoMerge mergeMethod env rest).1,
          (processLoop autoMerge mergeMethod env rest).2)) := by
  constructor
  · intro autoMerge mergeMethod env pr checks statuses hc hch hs hst hm
    simp [processPR, hc, hch, hs, hst, hm, approve, merge]
  · intro autoMerge mergeMethod env pr rest acts hpr
    rcases hrec : processLoop autoMerge mergeMethod env rest with ⟨acts2, res⟩
    simp [processLoop, hpr, hrec]

theorem claim_C9_witness :
    processPR AutoMerge.minor MergeMethod.merge cEnvFailCalls cPR1 =
      ([ApiAction.approve 1 false, ApiAction.merge 1 MergeMethod.merge false], none) ∧
    processLoop AutoMerge.minor MergeMethod.merge cEnvFailCalls [cPR1] =
      ([ApiAction.approve 1 false, ApiAction.merge 1 MergeMethod.merge false], none) := by
  have h1 := claim_C9_approve_then_merge_absorbed.1 AutoMerge.minor MergeMethod.merge
    cEnvFailCalls cPR1 [] [] rfl (by decide) rfl (by decide) (by decide)
  have h2 := claim_C9_approve_then_merge_absorbed.2 AutoMerge.minor MergeMethod.merge
    cEnvFailCalls cPR1 [] _ h1
  exact ⟨h1, by simpa using h2⟩

/-- C4 (as stated) is false: with two PRs where fetching check runs for the
first fails while the second is green and mergeable, the run aborts with
the fetch error and performs no action at all — the second PR is never
processed, contradicting "the PR is skipped and the run continues". -/
theorem claim_C4_counterexample :
    processPR AutoMerge.minor MergeMethod.merge cEnvBoom cPR2 =
      ([ApiAction.approve 2 true, ApiAction.merge 2 MergeMethod.merge true], none) ∧
    processLoop AutoMerge.minor MergeMethod.merge cEnvBoom [cPR1, cPR2] =
      ([], some "boom") := by
  decide

/-- C4 amended: a failed fetch of check runs (or of commit statuses) for
one PR raises out of the loop iteration, and an iteration that raises
aborts the whole loop: its error becomes the result and no later PR is
processed (the error only surfaces through the top-level catch). -/
theorem claim_C4_fetch_failure_aborts_run :
    (∀ (autoMerge : AutoMerge) (mergeMethod : MergeMethod) (env : Env) (pr : PRData)
       (msg : String),
       env.checksForRef (lastCommitHash pr) = .error msg →
       processPR autoMerge mergeMethod env pr = ([], some msg)) ∧
    (∀ (autoMerge : AutoMerge) (mergeMethod : MergeMethod) (env : Env) (pr : PRData)
       (checks : List CheckResult) (msg : String),
       env.checksForRef (lastCommitHash pr) = .ok checks →
       allChecksHaveSucceeded checks = true →
       env.statusesForRef (lastCommitHash pr) = .error msg →
       processPR autoMerge mergeMethod env pr = ([], some msg)) ∧
    (∀ (autoMerge : AutoMerge) (mergeMethod : MergeMethod) (env : Env) (pr : PRData)
       (rest : List PRData) (acts : List ApiAction) (msg : String),
       processPR autoMerge mergeMethod env pr = (acts, some msg) →
       processLoop autoMerge mergeMethod env (pr :: rest) = (acts, some msg)) := by
  refine ⟨?_, ?_, ?_⟩
  · intro autoMerge mergeMethod env pr msg hc
    simp [processPR, hc]
  · intro autoMerge mergeMethod env pr checks msg hc hch hs
    simp [processPR, hc, hch, hs]
  · intro autoMerge mergeMethod env pr rest acts msg hpr
    simp [processLoop, hpr]

theorem claim_C4_amended_witness :
    processLoop AutoMerge.minor MergeMethod.merge cEnvDown [cPR1] = ([], some "down") := by
  have h1 := claim_C4_fetch_failure_aborts_run.1 AutoMerge.minor MergeMethod.merge
    cEnvDown cPR1 "down" rfl
  exact claim_C4_fetch_failure_aborts_run.2.2 AutoMerge.minor MergeMethod.merge
    cEnvDown cPR1 [] [] "down" h1

/-- C8: an empty auto-merge input defaults to minor and an empty
merge-method input defaults to merge; any other value outside the allowed
sets makes the corresponding getter throw, and when a token is present
that error aborts the run before any PR is listed or processed, with no
action performed, for every environment. -/
theorem claim_C8_config_validation :
    (getAutoMerge "" = .ok AutoMerge.minor) ∧
    (getMergeMethod "" = .ok MergeMethod.merge) ∧
    (∀ v : String, v ≠ "" → v ≠ "major" → v ≠ "minor" → v ≠ "patch" →
       getAutoMerge v = .error ("Invalid auto-merge option: " ++ v)) ∧
    (∀ v : String, v ≠ "" → v ≠ "merge" → v ≠ "squash" → v ≠ "rebase" →
       getMergeMethod v = .error ("Invalid merge method: " ++ v)) ∧
    (∀ (inp : RunInputs) (env : Env) (msg : String),
       (if inp.tokenInput = "" then inp.envGithubToken else inp.tokenInput) ≠ "" →
       getAutoMerge inp.autoMergeInput = .error msg →
       runModel inp env = ([], some msg)) ∧
    (∀ (inp : RunInputs) (env : Env) (autoMerge : AutoMerge) (msg : String),
       (if inp.tokenInput = "" then inp.envGithubToken else inp.tokenInput) ≠ "" →
       getAutoMerge inp.autoMergeInput = .ok autoMerge →
       getMergeMethod inp.mergeMethodInput = .error msg →
       runModel inp env = ([], some msg)) := by
  refine ⟨rfl, rfl, ?_, ?_, ?_, ?_⟩
  · intro v h0 h1 h2 h3
    simp [getAutoMerge, h0, h1, h2, h3]
  · intro v h0 h1 h2 h3
    simp [getMergeMethod, h0, h1, h2, h3]
  · intro inp env msg htok herr
    simp [runModel, htok, herr]
  · intro inp env autoMerge msg htok hok herr
    simp [runModel, htok, hok, herr]

theorem claim_C8_witness :
    runModel ⟨"tok", "", "bogus", "", ""⟩ cEnvGreen =
      ([], some "Invalid auto-merge option: bogus") :=
  claim_C8_config_validation.2.2.2.2.1 ⟨"tok", "", "bogus", "", ""⟩ cEnvGreen
    "Invalid auto-merge option: bogus" (by decide) rfl

/-- C2 (as stated) is false: two titles of the form
"... from X to Y" with X and Y valid semantic versions where `getSemver`
does not return the classification demanded by the claim — one where the
8-character truncation corrupts a 9-character version (major change read
as `null`), and one where a prerelease difference yields `prepatch`
instead of the patch classification. -/
theorem claim_C2_counterexample :
    (parseSemver "1.0.0".toList = some ⟨1, 0, 0, [], []⟩ ∧
     parseSemver "12345.6.7".toList = some ⟨12345, 6, 7, [], []⟩ ∧
     specSemverClass ⟨1, 0, 0, [], []⟩ ⟨12345, 6, 7, [], []⟩ = BumpClass.major ∧
     getSemverL "Bump foo from 1.0.0 to 12345.6.7 !".toList = none ∧
     getSemverL "Bump foo from 1.0.0 to 12345.6.7 !".toList ≠ bumpToDiff BumpClass.major) ∧
    (parseSemver "1.0.1-a".toList = some ⟨1, 0, 1, [PreId.str ['a']], []⟩ ∧
     specSemverClass ⟨1, 0, 0, [], []⟩ ⟨1, 0, 1, [PreId.str ['a']], []⟩ = BumpClass.patch ∧
     getSemverL "Bump foo from 1.0.0 to 1.0.1-a !".toList = some DiffResult.prepatch ∧
     getSemverL "Bump foo from 1.0.0 to 1.0.1-a !".toList ≠ bumpToDiff BumpClass.patch) := by
  decide

/-- C7 (as stated) is false: in a title where "from " occurs twice, the
code cuts the from-token at the second marker occurrence (the `[1]`
segment of `split`), not only at the next space or newline as the claim
describes — on this title the claim predicts token "1.2.3fro" while the
code extracts "1.2.3" and even classifies the bump as patch. -/
theorem claim_C7_counterexample :
    ((splitList fromMarker "x from 1.2.3from 99 to 1.2.4 z".toList).length = 3) ∧
    claimedToken "x from 1.2.3from 99 to 1.2.4 z".toList fromMarker =
      some "1.2.3fro".toList ∧
    extractToken "x from 1.2.3from 99 to 1.2.4 z".toList fromMarker =
      some "1.2.3".toList ∧
    extractToken "x from 1.2.3from 99 to 1.2.4 z".toList fromMarker ≠
      claimedToken "x from 1.2.3from 99 to 1.2.4 z".toList fromMarker ∧
    getSemverL "x from 1.2.3from 99 to 1.2.4 z".toList = some DiffResult.patch := by
  decide

theorem stripMatch_eq_some {p s r : List Char} :
    stripMatch p s = some r ↔ s = p ++ r := by
  induction p generalizing s with
  | nil => simp [stripMatch]
  | cons x ps ih =>
    cases s with
    | nil => simp [stripMatch]
    | cons c cs =>
      by_cases hc : c = x
      · subst hc
        simp [stripMatch, ih]
      · simp [stripMatch, hc]

theorem afterOcc_eq_none {sep s : List Char} (h : containsSub sep s = false) :
    afterOcc sep s = none := by
  induction s with
  | nil =>
    simp only [containsSub] at h
    simp [afterOcc, h]
  | cons c rest ih =>
    cases hsm : stripMatch sep (c :: rest) with
    | none =>
      simp only [containsSub, hsm, Option.isSome_none, Bool.false_or] at h
      simp [afterOcc, hsm, ih h]
    | some r => simp [containsSub, hsm] at h

theorem beforeOcc_eq_self {sep s : List Char} (h : containsSub sep s = false) :
    beforeOcc sep s = s := by
  induction s with
  | nil => simp [beforeOcc]
  | cons c rest ih =>
    cases hsm : stripMatch sep (c :: rest) with
    | none =>
      simp only [containsSub, hsm, Option.isSome_none, Bool.false_or] at h
      simp [beforeOcc, hsm, ih h]
    | some r => simp [containsSub, hsm] at h

theorem beforeOcc_of_afterOcc_none {sep s : List Char}
    (h : afterOcc sep s = none) : beforeOcc sep s = s := by
  induction s with
  | nil => simp [beforeOcc]
  | cons c rest ih =>
    cases hsm : stripMatch sep (c :: rest) with
    | none =>
      simp only [afterOcc, hsm] at h
      simp [beforeOcc, hsm, ih h]
    | some r => simp [afterOcc, hsm] at h

theorem splitListF_getElem_zero (sep : List Char) (f : Nat) (s : List Char) :
    (splitListF sep f s)[0]? = some (beforeOcc sep s) := by
  cases f with
  | zero => simp [splitListF]
  | succ k =>
    cases hao : afterOcc sep s with
    | none => simp [splitListF, hao, beforeOcc_of_afterOcc_none hao]
    | some rest => simp [splitListF, hao]

theorem splitList_headD (sep s : List Char) :
    (splitList sep s).headD [] = beforeOcc sep s := by
  unfold splitList
  cases hf : s.length with
  | zero => simp [splitListF]
  | succ k =>
    cases hao : afterOcc sep s with
    | none => simp [splitListF, hao, beforeOcc_of_afterOcc_none hao]
    | some rest => simp [splitListF, hao]

theorem containsSub_of_isPrefix {m s : List Char} (h : m <+: s) :
    containsSub m s = true := by
  obtain ⟨t, ht⟩ := h
  cases s with
  | nil =>
    have hm : m = [] := by
      cases m with
      | nil => rfl
      | cons a as => simp at ht
    simp [containsSub, hm]
  | cons c rest =>
    have hsm : stripMatch m (c :: rest) = some t := stripMatch_eq_some.mpr ht.symm
    simp [containsSub, hsm]

theorem append_left_isPrefix {l l1 l2 : List Char} (h : l1 <+: l2) :
    l ++ l1 <+: l ++ l2 := by
  obtain ⟨t, ht⟩ := h
  exact ⟨t, by rw [List.append_assoc, ht]⟩

theorem occAt_append (m A B : List Char) (hm : m ≠ [])
    (h : containsSub m (A ++ m.dropLast) = false) :
    afterOcc m (A ++ (m ++ B)) = some B ∧ beforeOcc m (A ++ (m ++ B)) = A := by
  induction A with
  | nil =>
    obtain ⟨p, ps, rfl⟩ : ∃ p ps, m = p :: ps := by
      cases m with
      | nil => exact absurd rfl hm
      | cons p ps => exact ⟨p, ps, rfl⟩
    have hsm : stripMatch (p :: ps) (p :: (ps ++ B)) = some B :=
      stripMatch_eq_some.mpr (by simp)
    simp only [List.nil_append, List.cons_append]
    simp [afterOcc, beforeOcc, hsm]
  | cons a A' ih =>
    have hnm : stripMatch m (a :: (A' ++ (m ++ B))) = none := by
      cases hsm : stripMatch m (a :: (A' ++ (m ++ B))) with
      | none => rfl
      | some r =>
        exfalso
        have heq : a :: (A' ++ (m ++ B)) = m ++ r := stripMatch_eq_some.mp hsm
        have hp1 : m <+: (a :: A') ++ (m ++ B) := ⟨r, by simpa using heq.symm⟩
        have hdl : m.dropLast <+: m :=
          ⟨[m.getLast hm], List.dropLast_append_getLast hm⟩
        have hp2 : (a :: A') ++ m.dropLast <+: (a :: A') ++ (m ++ B) :=
          append_left_isPrefix (hdl.trans (List.prefix_append m B))
        have hm1 : 0 < m.length := List.length_pos.mpr hm
        have hlen : m.length ≤ ((a :: A') ++ m.dropLast).length := by
          simp only [List.length_append, List.length_dropLast, List.length_cons]
          omega
        have hmT : m <+: (a :: A') ++ m.dropLast :=
          List.prefix_of_prefix_length_le hp1 hp2 hlen
        have := containsSub_of_isPrefix hmT
        rw [h] at this
        cases this
    have htail : containsSub m (A' ++ m.dropLast) = false := by
      have h' := h
      simp only [List.cons_append, containsSub, Bool.or_eq_false_iff] at h'
      exact h'.2
    obtain ⟨ih1, ih2⟩ := ih htail
    constructor
    · show afterOcc m ((a :: A') ++ (m ++ B)) = some B
      simp only [List.cons_append]
      simp only [afterOcc, hnm]
      exact ih1
    · show beforeOcc m ((a :: A') ++ (m ++ B)) = a :: A'
      simp only [List.cons_append]
      simp only [beforeOcc, hnm]
      rw [ih2]

theorem beforeOcc_singleton (c : Char) (s : List Char) :
    beforeOcc [c] s = s.takeWhile (· ≠ c) := by
  induction s with
  | nil => simp [beforeOcc]
  | cons a rest ih =>
    by_cases hac : a = c
    · subst hac
      have hsm : stripMatch [a] (a :: rest) = some rest := by simp [stripMatch]
      simp [beforeOcc, hsm, List.takeWhile_cons]
    · have hsm : stripMatch [c] (a :: rest) = none := by simp [stripMatch, hac]
      simp [beforeOcc, hsm, List.takeWhile_cons, hac, ih]

theorem extractToken_first_occ (m A B : List Char) (hm : m ≠ [])
    (h : containsSub m (A ++ m.dropLast) = false) :
    extractToken (A ++ (m ++ B)) m =
      some (jsTrim (List.take 8
        (((beforeOcc m B).takeWhile (· ≠ ' ')).takeWhile (· ≠ '\n')))) := by
  obtain ⟨hao, hbo⟩ := occAt_append m A B hm h
  have hpos : (A ++ (m ++ B)).length ≠ 0 := by
    have := List.length_pos.mpr hm
    simp only [List.length_append]
    omega
  obtain ⟨k, hk⟩ := Nat.exists_eq_succ_of_ne_zero hpos
  have hsplit : splitList m (A ++ (m ++ B)) = A :: splitListF m k B := by
    unfold splitList
    rw [hk]
    simp only [splitListF, hao, hbo]
  have h1 : (splitList m (A ++ (m ++ B)))[1]? = some (beforeOcc m B) := by
    rw [hsplit, List.getElem?_cons_succ, splitListF_getElem_zero]
  unfold extractToken
  rw [h1]
  simp only [splitList_headD, beforeOcc_singleton]

theorem takeWhile_append_cons {p : Char → Bool} {X R : List Char} {c : Char}
    (hX : ∀ a ∈ X, p a = true) (hc : p c = false) :
    (X ++ c :: R).takeWhile p = X := by
  induction X with
  | nil => simp [List.takeWhile_cons, hc]
  | cons a X' ih =>
    have ha : p a = true := hX a (by simp)
    simp [List.takeWhile_cons, ha, ih (fun b hb => hX b (by simp [hb]))]

theorem jsTrim_eq_self {X : List Char} (h : ∀ a ∈ X, isJsWhite a = false) :
    jsTrim X = X := by
  unfold jsTrim
  have h1 : X.dropWhile isJsWhite = X := by
    cases X with
    | nil => rfl
    | cons a X' => simp [List.dropWhile_cons, h a (by simp)]
  rw [h1]
  have h2 : X.reverse.dropWhile isJsWhite = X.reverse := by
    cases hrv : X.reverse with
    | nil => rfl
    | cons a Y =>
      have ha : a ∈ X := by
        rw [← List.mem_reverse, hrv]
        simp
      simp [List.dropWhile_cons, h a ha]
  rw [h2, List.reverse_reverse]

theorem semverTokenChar_not_white {a : Char} (h : semverTokenChar a = true) :
    a ≠ ' ' ∧ a ≠ '\n' ∧ isJsWhite a = false := by
  refine ⟨?_, ?_, ?_⟩
  · rintro rfl
    exact absurd h (by decide)
  · rintro rfl
    exact absurd h (by decide)
  · cases hw : isJsWhite a with
    | false => rfl
    | true =>
      exfalso
      have hcase : a = ' ' ∨ a = '\t' ∨ a = '\n' ∨ a = '\r' ∨
          a = '\x0b' ∨ a = '\x0c' ∨ a = ' ' ∨ a = '﻿' := by
        simpa [isJsWhite, or_assoc] using hw
      rcases hcase with rfl | rfl | rfl | rfl | rfl | rfl | rfl | rfl <;>
        exact absurd h (by decide)

theorem parseSemver_ne_nil {X : List Char} {v : SemVer}
    (h : parseSemver X = some v) : X ≠ [] := by
  rintro rfl
  rw [show parseSemver [] = none from by decide] at h
  cases h

theorem diffParsed_eq_spec {v1 v2 : SemVer} (h1 : v1.prerelease = [])
    (h2 : v2.prerelease = []) :
    diffParsed v1 v2 = bumpToDiff (specSemverClass v1 v2) := by
  by_cases hM : v1.major = v2.major <;> by_cases hm : v1.minor = v2.minor <;>
    by_cases hp : v1.patch = v2.patch <;>
    simp [diffParsed, specSemverClass, bumpToDiff, hM, hm, hp, h1, h2]

/-- C7 as amended: in every title of the form `A ++ marker ++ B` whose
first marker occurrence sits right after `A`, the extracted token is the
text following that first occurrence cut at the next occurrence of the
same marker (the `[1]` segment of `split`), then cut at the next space,
then at the next newline, truncated to 8 characters and trimmed. -/
theorem claim_C7_first_occurrence_resolution (m A B : List Char) (hm : m ≠ [])
    (h : containsSub m (A ++ m.dropLast) = false) :
    extractToken (A ++ (m ++ B)) m =
      some (jsTrim (List.take 8
        (((beforeOcc m B).takeWhile (· ≠ ' ')).takeWhile (· ≠ '\n')))) :=
  extractToken_first_occ m A B hm h

theorem claim_C7_witness :
    extractToken ("x ".toList ++ (fromMarker ++ "1.2.3from 99 to 1.2.4 z".toList))
      fromMarker =
      some (jsTrim (List.take 8
        (((beforeOcc fromMarker "1.2.3from 99 to 1.2.4 z".toList).takeWhile
            (· ≠ ' ')).takeWhile (· ≠ '\n')))) :=
  claim_C7_first_occurrence_resolution fromMarker "x ".toList
    "1.2.3from 99 to 1.2.4 z".toList (by decide) (by decide)

theorem containsSub_of_extractToken {title m x : List Char}
    (h : extractToken title m = some x) : containsSub m title = true := by
  cases hcc : containsSub m title with
  | true => rfl
  | false =>
    exfalso
    have hao : afterOcc m title = none := afterOcc_eq_none hcc
    have hnone : (splitList m title)[1]? = none := by
      unfold splitList
      cases title.length with
      | zero => simp [splitListF]
      | succ k => simp [splitListF, hao]
    unfold extractToken at h
    rw [hnone] at h
    cases h

/-- C6: `getSemver` is total (it is a function into `Option`), and it can
only return a classification when both markers occur in the title, both
extracted tokens are nonempty and both parse as semantic versions;
contrapositively, a missing marker, an empty token or an invalid version
token always yields `none`, never an error. -/
theorem claim_C6_parse_never_raises (title : String) (r : DiffResult)
    (h : getSemver title = some r) :
    containsSub fromMarker title.toList = true ∧
    containsSub toMarker title.toList = true ∧
    ∃ fromVersion toVersion v1 v2,
      extractToken title.toList fromMarker = some fromVersion ∧
      extractToken title.toList toMarker = some toVersion ∧
      fromVersion ≠ [] ∧ toVersion ≠ [] ∧
      parseSemver fromVersion = some v1 ∧ parseSemver toVersion = some v2 := by
  unfold getSemver getSemverL at h
  split at h
  next fx tx hf ht =>
    by_cases hne : fx ≠ [] ∧ tx ≠ []
    · rw [if_pos hne] at h
      unfold semverDiff at h
      split at h
      next v1 v2 hp1 hp2 =>
        exact ⟨containsSub_of_extractToken hf, containsSub_of_extractToken ht,
          fx, tx, v1, v2, hf, ht, hne.1, hne.2, hp1, hp2⟩
      next => cases h
    · rw [if_neg hne] at h; cases h
  next => cases h

theorem claim_C6_witness :
    containsSub fromMarker "Bump foo from 1.2.3 to 1.2.4".toList = true ∧
    containsSub toMarker "Bump foo from 1.2.3 to 1.2.4".toList = true ∧
    ∃ fromVersion toVersion v1 v2,
      extractToken "Bump foo from 1.2.3 to 1.2.4".toList fromMarker = some fromVersion ∧
      extractToken "Bump foo from 1.2.3 to 1.2.4".toList toMarker = some toVersion ∧
      fromVersion ≠ [] ∧ toVersion ≠ [] ∧
      parseSemver fromVersion = some v1 ∧ parseSemver toVersion = some v2 :=
  claim_C6_parse_never_raises "Bump foo from 1.2.3 to 1.2.4" DiffResult.patch (by decide)

/-- C2 as amended: for a title `pre ++ "from " ++ X ++ " to " ++ Y` whose
markers first occur at the designated positions, where `X` and `Y` are
valid semantic versions of at most 8 characters (so the `substr(0, 8)`
truncation is inert), made of semver token characters, and without a
prerelease part (so `semver.diff` is not `pre`-flavoured), `getSemver`
returns exactly the standard-precedence classification of the change:
the highest differing main component, or `null` when the versions are
equal. -/
theorem claim_C2_classification_restricted (pre X Y : List Char) (v1 v2 : SemVer)
    (hpx : parseSemver X = some v1) (hpy : parseSemver Y = some v2)
    (hpre1 : v1.prerelease = []) (hpre2 : v2.prerelease = [])
    (hx8 : X.length ≤ 8) (hy8 : Y.length ≤ 8)
    (hxc : ∀ a ∈ X, semverTokenChar a = true)
    (hyc : ∀ a ∈ Y, semverTokenChar a = true)
    (h1 : containsSub fromMarker (pre ++ fromMarker.dropLast) = false)
    (h2 : containsSub fromMarker (X ++ (toMarker ++ Y)) = false)
    (h3 : containsSub toMarker ((pre ++ (fromMarker ++ X)) ++ toMarker.dropLast) = false)
    (h4 : containsSub toMarker Y = false) :
    getSemverL (pre ++ (fromMarker ++ (X ++ (toMarker ++ Y)))) =
      bumpToDiff (specSemverClass v1 v2) := by
  have hfrom : extractToken (pre ++ (fromMarker ++ (X ++ (toMarker ++ Y)))) fromMarker
      = some X := by
    rw [extractToken_first_occ fromMarker pre (X ++ (toMarker ++ Y)) (by decide) h1]
    congr 1
    rw [beforeOcc_eq_self h2]
    have hsp : (X ++ (toMarker ++ Y)).takeWhile (· ≠ ' ') = X := by
      rw [show toMarker ++ Y = ' ' :: ("to ".toList ++ Y) from rfl]
      exact takeWhile_append_cons
        (fun a ha => decide_eq_true (semverTokenChar_not_white (hxc a ha)).1)
        (by decide)
    rw [hsp]
    have hnl : X.takeWhile (· ≠ '\n') = X :=
      List.takeWhile_eq_self_iff.mpr
        (fun a ha => decide_eq_true (semverTokenChar_not_white (hxc a ha)).2.1)
    rw [hnl, List.take_of_length_le hx8]
    exact jsTrim_eq_self (fun a ha => (semverTokenChar_not_white (hxc a ha)).2.2)
  have hto : extractToken (pre ++ (fromMarker ++ (X ++ (toMarker ++ Y)))) toMarker
      = some Y := by
    rw [show pre ++ (fromMarker ++ (X ++ (toMarker ++ Y)))
          = (pre ++ (fromMarker ++ X)) ++ (toMarker ++ Y) from by
        simp [List.append_assoc]]
    rw [extractToken_first_occ toMarker (pre ++ (fromMarker ++ X)) Y (by decide) h3]
    congr 1
    rw [beforeOcc_eq_self h4]
    have hsp : Y.takeWhile (· ≠ ' ') = Y :=
      List.takeWhile_eq_self_iff.mpr
        (fun a ha => decide_eq_true (semverTokenChar_not_white (hyc a ha)).1)
    have hnl : Y.takeWhile (· ≠ '\n') = Y :=
      List.takeWhile_eq_self_iff.mpr
        (fun a ha => decide_eq_true (semverTokenChar_not_white (hyc a ha)).2.1)
    rw [hsp, hnl, List.take_of_length_le hy8]
    exact jsTrim_eq_self (fun a ha => (semverTokenChar_not_white (hyc a ha)).2.2)
  unfold getSemverL
  rw [hfrom, hto]
  show (if X ≠ [] ∧ Y ≠ [] then semverDiff X Y else none)
      = bumpToDiff (specSemverClass v1 v2)
  rw [if_pos ⟨parseSemver_ne_nil hpx, parseSemver_ne_nil hpy⟩]
  unfold semverDiff
  rw [hpx, hpy]
  exact diffParsed_eq_spec hpre1 hpre2

theorem claim_C2_witness :
    getSemverL ("Bump foo ".toList ++ (fromMarker ++
        ("1.2.3".toList ++ (toMarker ++ "2.0.0".toList)))) =
      bumpToDiff (specSemverClass ⟨1, 2, 3, [], []⟩ ⟨2, 0, 0, [], []⟩) :=
  claim_C2_classification_restricted "Bump foo ".toList "1.2.3".toList "2.0.0".toList
    ⟨1, 2, 3, [], []⟩ ⟨2, 0, 0, [], []⟩
    (by decide) (by decide) rfl rfl (by decide) (by decide) (by decide) (by decide)
    (by decide) (by decide) (by decide) (by decide)

theorem indexOf_append_lt {a : String} {l1 l2 : List String} (h : a ∈ l1) :
    (l1 ++ l2).indexOf a < l1.length := by
  induction l1 with
  | nil => cases h
  | cons b l1' ih =>
    rw [List.cons_append, List.indexOf_cons]
    cases hba : b == a with
    | true => simp
    | false =>
      have h' : a ∈ l1' := by
        rcases List.mem_cons.mp h with heq | h'
        · rw [heq] at hba
          rw [show (b == b) = true from by simp] at hba
          cases hba
        · exact h'
      simp only [Bool.cond_false, List.length_cons]
      exact Nat.succ_lt_succ (ih h')

theorem indexOf_append_not_mem {a : String} {l1 l2 : List String} (h : a ∉ l1) :
    (l1 ++ a :: l2).indexOf a = l1.length := by
  induction l1 with
  | nil => simp [List.indexOf_cons]
  | cons b l1' ih =>
    have hba : (b == a) = false := by
      rw [beq_eq_false_iff_ne]
      intro hh
      subst hh
      exact h (List.mem_cons_self _ _)
    rw [List.cons_append, List.indexOf_cons, hba]
    simp only [Bool.cond_false, List.length_cons]
    rw [ih (fun hh => h (List.mem_cons_of_mem _ hh))]

theorem specDedup_congr {seen1 seen2 : List String}
    (h : ∀ c, c ∈ seen1 ↔ c ∈ seen2) (l : List StatusResult) :
    specDedup seen1 l = specDedup seen2 l := by
  induction l generalizing seen1 seen2 with
  | nil => rfl
  | cons s rest ih =>
    by_cases hs : s.context ∈ seen1
    · simp [specDedup, hs, (h _).mp hs, ih h]
    · have hs2 : s.context ∉ seen2 := fun hh => hs ((h _).mpr hh)
      simp only [specDedup, if_neg hs, if_neg hs2]
      rw [@ih (s.context :: seen1) (s.context :: seen2) (fun c => by
        simp only [List.mem_cons]
        exact or_congr Iff.rfl (h c))]

theorem uniqueStatuses_loop_eq (ss : List StatusResult) :
    ∀ (l pre : List StatusResult), ss = pre ++ l →
      filterWithIndex
        (fun item index => (ss.map (·.context)).indexOf item.context == index)
        l pre.length
      = specDedup (pre.map (·.context)) l := by
  intro l
  induction l with
  | nil => intro pre _; rfl
  | cons s rest ih =>
    intro pre hss
    have hlen1 : (pre ++ [s]).length = pre.length + 1 := by simp
    have hnext := ih (pre ++ [s]) (by rw [hss]; simp)
    rw [hlen1] at hnext
    by_cases hmem : s.context ∈ pre.map (·.context)
    · have hlt : (ss.map (·.context)).indexOf s.context < pre.length := by
        rw [hss, List.map_append]
        have := @indexOf_append_lt s.context (pre.map (·.context))
          ((s :: rest).map (·.context)) hmem
        simpa using this
      have hcond : ((ss.map (·.context)).indexOf s.context == pre.length) = false := by
        rw [beq_eq_false_iff_ne]
        omega
      simp only [filterWithIndex, hcond, if_neg Bool.false_ne_true]
      rw [hnext]
      have hbridge : specDedup ((pre ++ [s]).map (·.context)) rest
          = specDedup (pre.map (·.context)) rest := by
        apply specDedup_congr
        intro c
        simp only [List.map_append, List.map_cons, List.map_nil, List.mem_append,
          List.mem_cons, List.not_mem_nil, or_false]
        constructor
        · rintro (hc | rfl)
          · exact hc
          · exact hmem
        · exact Or.inl
      rw [hbridge]
      simp [specDedup, hmem]
    · have heq : (ss.map (·.context)).indexOf s.context = pre.length := by
        rw [hss, List.map_append, List.map_cons]
        have := @indexOf_append_not_mem s.context (pre.map (·.context))
          (rest.map (·.context)) hmem
        simpa using this
      have hcond : ((ss.map (·.context)).indexOf s.context == pre.length) = true := by
        rw [beq_iff_eq]
        exact heq
      simp only [filterWithIndex, hcond, if_pos rfl]
      rw [hnext]
      have hbridge : specDedup ((pre ++ [s]).map (·.context)) rest
          = specDedup (s.context :: pre.map (·.context)) rest := by
        apply specDedup_congr
        intro c
        simp only [List.map_append, List.map_cons, List.map_nil, List.mem_append,
          List.mem_cons, List.not_mem_nil, or_false]
        tauto
      rw [hbridge]
      simp [specDedup, hmem]

/-- C3: the aggregate verdict is true exactly when every check run
concludes `success` or `neutral` and, after deduplicating the statuses by
context with the first occurrence of each context winning, every surviving
status has state `success`; an empty list makes its half vacuously true. -/
theorem claim_C3_signal_aggregation (checks : List CheckResult)
    (statuses : List StatusResult) :
    signalVerdict checks statuses = true ↔
      ((∀ c ∈ checks, c.conclusion = some "success" ∨ c.conclusion = some "neutral") ∧
       ∀ s ∈ specDedup [] statuses, s.state = "success") := by
  have hdedup : uniqueStatuses statuses = specDedup [] statuses := by
    have := uniqueStatuses_loop_eq statuses statuses [] rfl
    simpa [uniqueStatuses] using this
  unfold signalVerdict allChecksHaveSucceeded allStatusesHaveSucceeded
  rw [hdedup, Bool.and_eq_true, List.all_eq_true, List.all_eq_true]
  simp only [decide_eq_true_eq]
